import Mathlib

set_option maxHeartbeats 1000000

namespace PyMut

/-!
Shallow embedding of `src/main.py`, a two-pass AST-based mutation testing
tool.  Python AST nodes are embedded as mutual inductive types (with
explicit list types so that mutual structural induction is available);
the mutable `self.sites` list of the collector becomes list concatenation
in visitation order, and the mutable `self.applied` flag of the applier
becomes an explicitly threaded boolean.
-/

/-- Python class names of `ast.cmpop` subclasses (comparison operators). -/
inductive CmpOp where
  | eq | notEq | lt | ltE | gt | gtE | isOp | isNotOp | inOp | notInOp
deriving DecidableEq

/-- `type(op).__name__` for a comparison operator node. -/
def CmpOp.pyName : CmpOp → String
  | .eq => "Eq"
  | .notEq => "NotEq"
  | .lt => "Lt"
  | .ltE => "LtE"
  | .gt => "Gt"
  | .gtE => "GtE"
  | .isOp => "Is"
  | .isNotOp => "IsNot"
  | .inOp => "In"
  | .notInOp => "NotIn"

/-- Python class names of `ast.operator` subclasses (binary operators). -/
inductive Operator where
  | add | sub | mult | div
deriving DecidableEq

/-- `type(node.op).__name__` for a binary operator node. -/
def Operator.pyName : Operator → String
  | .add => "Add"
  | .sub => "Sub"
  | .mult => "Mult"
  | .div => "Div"

/-- The value carried by an `ast.Constant` node (fragment used by the tool).
`isinstance(value, bool)` is true exactly for the `boolVal` constructor. -/
inductive PyConst where
  | boolVal (b : Bool)
  | intVal (n : Int)
  | strVal (s : String)
  | noneVal
deriving DecidableEq

/-- A value stored in a mutation-site dict: op sites store class-name
strings, boolean-literal sites store the Python bools themselves. -/
inductive SiteVal where
  | str (s : String)
  | bool (b : Bool)
deriving DecidableEq

/-- `str(v)` as Python's f-string would render a site value. -/
def SiteVal.pyStr : SiteVal → String
  | .str s => s
  | .bool true => "True"
  | .bool false => "False"

/-- A mutation-site dict as built by `MutationSiteCollector`:
keys `kind`, `lineno`, `col_offset`, `op_index` (present only for
`Compare` sites, modelled by `Option`), `orig`, `target`. -/
structure Site where
  kind : String
  lineno : Nat
  col_offset : Nat
  op_index : Option Nat
  orig : SiteVal
  target : SiteVal
deriving DecidableEq

/-- The `OP_MUTATION_MAP` dict literal of `src/main.py`, kept as the written
sequence of key-value pairs; note the duplicate `"Add"` key. -/
def OP_MUTATION_MAP : List (String × String) :=
  [("Eq", "NotEq"), ("NotEq", "Eq"), ("Lt", "Gt"), ("Gt", "Lt"),
   ("Add", "Sub"), ("Sub", "Add"), ("Add", "Mult"), ("Mult", "Add")]

/-- Lookup in a Python dict built from a literal: later duplicate keys
overwrite earlier ones, so the last matching pair wins. -/
def dictLookup (m : List (String × String)) (k : String) : Option String :=
  m.foldl (fun acc p => if p.1 = k then some p.2 else acc) none

/-- The `CONST_BOOL_MUTATIONS` dict of `src/main.py`: flips `True` and
`False` (every `bool` is a key, so the `in` test always succeeds). -/
def CONST_BOOL_MUTATIONS : Bool → Bool
  | true => false
  | false => true

mutual

/-- Fragment of the Python expression AST used by the tool, with the
`lineno`/`col_offset` anchors the collector and applier match on. -/
inductive Expr where
  | name (id : String) (lineno col_offset : Nat)
  | constant (value : PyConst) (lineno col_offset : Nat)
  | binOp (left : Expr) (op : Operator) (right : Expr) (lineno col_offset : Nat)
  | compare (left : Expr) (ops : List CmpOp) (comparators : ExprList)
      (lineno col_offset : Nat)
deriving DecidableEq

/-- A list of expressions (`comparators`, `targets`), as a mutual type so
that structural induction covers it. -/
inductive ExprList where
  | nil
  | cons (head : Expr) (tail : ExprList)
deriving DecidableEq

end

mutual

/-- Fragment of the Python statement AST used by the tool. -/
inductive Stmt where
  | assign (targets : ExprList) (value : Expr) (lineno col_offset : Nat)
  | ifStmt (test : Expr) (body orelse : StmtList) (lineno col_offset : Nat)
  | ret (value : Option Expr) (lineno col_offset : Nat)
  | exprStmt (value : Expr) (lineno col_offset : Nat)
deriving DecidableEq

/-- A list of statements (`body` of a module or of an `if`). -/
inductive StmtList where
  | nil
  | cons (head : Stmt) (tail : StmtList)
deriving DecidableEq

end

/-- A parsed module: `ast.Module` is just its `body`. -/
abbrev Module := StmtList

/-- The `for idx, op in enumerate(node.ops)` loop of
`MutationSiteCollector.visit_Compare`, started at index `i`: one site per
operator whose class name is a key of `OP_MUTATION_MAP`. -/
def compareOpSites (ln c : Nat) : List CmpOp → Nat → List Site
  | [], _ => []
  | op :: rest, i =>
    (match dictLookup OP_MUTATION_MAP op.pyName with
     | some t => [⟨"Compare", ln, c, some i, .str op.pyName, .str t⟩]
     | none => []) ++ compareOpSites ln c rest (i + 1)

mutual

/-- `MutationSiteCollector` on an expression.  Appends to `self.sites` in
visitation order: a node's own sites first (`visit_Compare` /
`visit_BinOp` / `visit_Constant` append before `generic_visit`), then the
children in AST field order. -/
def collectExpr : Expr → List Site
  | .name _ _ _ => []
  | .constant v ln c =>
    match v with
    | .boolVal b => [⟨"ConstantBool", ln, c, none, .bool b, .bool (CONST_BOOL_MUTATIONS b)⟩]
    | _ => []
  | .binOp left op right ln c =>
    (match dictLookup OP_MUTATION_MAP op.pyName with
     | some t => [⟨"BinOp", ln, c, none, .str op.pyName, .str t⟩]
     | none => []) ++ collectExpr left ++ collectExpr right
  | .compare left ops comps ln c =>
    compareOpSites ln c ops 0 ++ collectExpr left ++ collectExprList comps

/-- `generic_visit` over a list field of expressions. -/
def collectExprList : ExprList → List Site
  | .nil => []
  | .cons e rest => collectExpr e ++ collectExprList rest

end

mutual

/-- `MutationSiteCollector` on a statement (`generic_visit`, field order). -/
def collectStmt : Stmt → List Site
  | .assign targets value _ _ => collectExprList targets ++ collectExpr value
  | .ifStmt test body orelse _ _ =>
    collectExpr test ++ collectStmtList body ++ collectStmtList orelse
  | .ret value _ _ =>
    match value with
    | some e => collectExpr e
    | none => []
  | .exprStmt value _ _ => collectExpr value

/-- `generic_visit` over a list field of statements. -/
def collectStmtList : StmtList → List Site
  | .nil => []
  | .cons s rest => collectStmt s ++ collectStmtList rest

end

/-- `collector.visit(root)` on a parsed module: visiting `ast.Module`
dispatches to `generic_visit` over its body. -/
def collectModule (m : Module) : List Site := collectStmtList m

/-- `getattr(ast, name)()` restricted to comparison-operator classes.
Every `target` the collector writes into a `Compare` site is one of these
names; an unknown name would raise `AttributeError` in Python and is
outside the embedded domain. -/
def astCmpClass : SiteVal → Option CmpOp
  | .str "Eq" => some .eq
  | .str "NotEq" => some .notEq
  | .str "Lt" => some .lt
  | .str "LtE" => some .ltE
  | .str "Gt" => some .gt
  | .str "GtE" => some .gtE
  | .str "Is" => some .isOp
  | .str "IsNot" => some .isNotOp
  | .str "In" => some .inOp
  | .str "NotIn" => some .notInOp
  | _ => none

/-- `getattr(ast, name)()` restricted to binary-operator classes (the
`target` of every collector-produced `BinOp` site is one of these). -/
def astOperatorClass : SiteVal → Option Operator
  | .str "Add" => some .add
  | .str "Sub" => some .sub
  | .str "Mult" => some .mult
  | .str "Div" => some .div
  | _ => none

/-- The value the applier's `visit_Constant` writes into the replacement
`ast.Constant(value=self.site["target"])`. -/
def SiteVal.asConst : SiteVal → PyConst
  | .str s => .strVal s
  | .bool b => .boolVal b

/-- The inner conditions of `SingleSiteApplier.visit_Compare` after the
location match: `op_index` in range, current operator still equal to
`site["orig"]`, and the replacement class; `some` returns the updated
`ops` list (`node.ops[idx] = new_op_cls()`). -/
def compareMutation (site : Site) (ops : List CmpOp) : Option (List CmpOp) :=
  match site.op_index with
  | none => none
  | some idx =>
    match ops.get? idx with
    | none => none
    | some op =>
      if site.orig = .str op.pyName then
        (astCmpClass site.target).map (fun newOp => ops.set idx newOp)
      else none

/-- The inner condition of `SingleSiteApplier.visit_BinOp` after the
location match: the current operator still equals `site["orig"]`; `some`
returns the replacement operator (`node.op = new_op_cls()`). -/
def binOpMutation (site : Site) (op : Operator) : Option Operator :=
  if site.orig = .str op.pyName then astOperatorClass site.target else none

/-- The inner condition of `SingleSiteApplier.visit_Constant` after the
location match: the value is a `bool` equal to `site["orig"]`; `some`
returns the replacement constant value. -/
def constMutation (site : Site) (v : PyConst) : Option PyConst :=
  match v with
  | .boolVal bv => if site.orig = .bool bv then some site.target.asConst else none
  | _ => none

/-- The full guard of `visit_Compare`: not yet applied, site kind
`Compare`, matching location, and the inner conditions. -/
def compareTry (site : Site) (ops : List CmpOp) (ln c : Nat) (b : Bool) :
    Option (List CmpOp) :=
  if b = false ∧ site.kind = "Compare" ∧ ln = site.lineno ∧ c = site.col_offset
  then compareMutation site ops else none

/-- The full guard of `visit_BinOp`: not yet applied, site kind `BinOp`,
matching location, and the operator re-check. -/
def binOpTry (site : Site) (op : Operator) (ln c : Nat) (b : Bool) : Option Operator :=
  if b = false ∧ site.kind = "BinOp" ∧ ln = site.lineno ∧ c = site.col_offset
  then binOpMutation site op else none

/-- The full guard of `visit_Constant`: not yet applied, site kind
`ConstantBool`, matching location, and the value re-check. -/
def constTry (site : Site) (v : PyConst) (ln c : Nat) (b : Bool) : Option PyConst :=
  if b = false ∧ site.kind = "ConstantBool" ∧ ln = site.lineno ∧ c = site.col_offset
  then constMutation site v else none

mutual

/-- `SingleSiteApplier.visit` on an expression; the mutable `self.applied`
flag is the threaded boolean.  All non-mutating paths of `visit_Compare`
and `visit_BinOp` fall through to `generic_visit`, which transforms the
children in AST field order; `visit_Constant` never calls `generic_visit`
and — exactly as in the source — never sets `applied`. -/
def applyExpr (site : Site) : Expr → Bool → Expr × Bool
  | .name i ln c, b => (.name i ln c, b)
  | .constant v ln c, b =>
    match constTry site v ln c b with
    | some v2 => (.constant v2 ln c, b)
    | none => (.constant v ln c, b)
  | .binOp l op r ln c, b =>
    match binOpTry site op ln c b with
    | some op2 => (.binOp l op2 r ln c, true)
    | none =>
      let p := applyExpr site l b
      let q := applyExpr site r p.2
      (.binOp p.1 op q.1 ln c, q.2)
  | .compare l ops comps ln c, b =>
    match compareTry site ops ln c b with
    | some ops2 => (.compare l ops2 comps ln c, true)
    | none =>
      let p := applyExpr site l b
      let q := applyExprList site comps p.2
      (.compare p.1 ops q.1 ln c, q.2)

/-- `generic_visit` of the applier over a list field of expressions. -/
def applyExprList (site : Site) : ExprList → Bool → ExprList × Bool
  | .nil, b => (.nil, b)
  | .cons e rest, b =>
    let p := applyExpr site e b
    let q := applyExprList site rest p.2
    (.cons p.1 q.1, q.2)

end

mutual

/-- `generic_visit` of the applier on a statement (AST field order). -/
def applyStmt (site : Site) : Stmt → Bool → Stmt × Bool
  | .assign targets value ln c, b =>
    let p := applyExprList site targets b
    let q := applyExpr site value p.2
    (.assign p.1 q.1 ln c, q.2)
  | .ifStmt test body orelse ln c, b =>
    let p := applyExpr site test b
    let q := applyStmtList site body p.2
    let r := applyStmtList site orelse q.2
    (.ifStmt p.1 q.1 r.1 ln c, r.2)
  | .ret value ln c, b =>
    match value with
    | some e =>
      let p := applyExpr site e b
      (.ret (some p.1) ln c, p.2)
    | none => (.ret none ln c, b)
  | .exprStmt value ln c, b =>
    let p := applyExpr site value b
    (.exprStmt p.1 ln c, p.2)

/-- `generic_visit` of the applier over a list field of statements. -/
def applyStmtList (site : Site) : StmtList → Bool → StmtList × Bool
  | .nil, b => (.nil, b)
  | .cons s rest, b =>
    let p := applyStmt site s b
    let q := applyStmtList site rest p.2
    (.cons p.1 q.1, q.2)

end

/-- `SingleSiteApplier(site).visit(tree)`: the applier starts with
`applied = False`; the returned pair is the transformed module and the
final value of `applied`. -/
def applyModule (site : Site) (m : Module) : Module × Bool :=
  applyStmtList site m false

/-- `copy.deepcopy` of a parse tree: produces an independent tree equal to
the original; on the pure embedding this is the identity. -/
def deepcopy (m : Module) : Module := m

/-- Source token of a binary operator. -/
def Operator.symbol : Operator → String
  | .add => "+"
  | .sub => "-"
  | .mult => "*"
  | .div => "/"

/-- Unparser precedence of a binary operator (term binds tighter than
arith, as in CPython's `_Precedence`). -/
def Operator.prec : Operator → Nat
  | .add => 11
  | .sub => 11
  | .mult => 12
  | .div => 12

/-- Source token of a comparison operator. -/
def CmpOp.symbol : CmpOp → String
  | .eq => "=="
  | .notEq => "!="
  | .lt => "<"
  | .ltE => "<="
  | .gt => ">"
  | .gtE => ">="
  | .isOp => "is"
  | .isNotOp => "is not"
  | .inOp => "in"
  | .notInOp => "not in"

/-- Modelled from the spec: rendering of an `ast.Constant` value by the
external tree-to-source printer. -/
def PyConst.render : PyConst → String
  | .boolVal true => "True"
  | .boolVal false => "False"
  | .intVal n => toString n
  | .strVal s => "'" ++ s ++ "'"
  | .noneVal => "None"

/-- Indentation of a statement at a nesting level (four spaces each). -/
def indentStr (level : Nat) : String := String.join (List.replicate level "    ")

mutual

/-- Modelled from the spec: the external tree-to-source printer
(`print(Tree) -> text`, CPython's `ast.unparse`) on an expression of the
embedded fragment.  The argument is the precedence required by the
context; a subexpression of strictly lower precedence is parenthesized.
Comparisons have precedence 7 and render their operands at 8; binary
operators render the left operand at their own precedence and the right
one level higher (left associativity). -/
def unparseExpr : Expr → Nat → String
  | .name i _ _, _ => i
  | .constant v _ _, _ => v.render
  | .binOp l op r _ _, ctx =>
    let s := unparseExpr l op.prec ++ " " ++ op.symbol ++ " " ++ unparseExpr r (op.prec + 1)
    if op.prec < ctx then "(" ++ s ++ ")" else s
  | .compare l ops comps _ _, ctx =>
    let s := unparseExpr l 8 ++ unparseCmpChain ops comps
    if 7 < ctx then "(" ++ s ++ ")" else s

/-- Modelled from the spec: the ` <op> <comparator>` segments of a chained
comparison. -/
def unparseCmpChain : List CmpOp → ExprList → String
  | op :: restOps, .cons e restComps =>
    " " ++ op.symbol ++ " " ++ unparseExpr e 8 ++ unparseCmpChain restOps restComps
  | _, _ => ""

end

mutual

/-- Modelled from the spec: the external printer on a statement at a
nesting level. -/
def unparseStmt : Stmt → Nat → String
  | .assign targets value _ _, lvl =>
    indentStr lvl ++ unparseTargets targets ++ unparseExpr value 0
  | .ifStmt test body orelse _ _, lvl =>
    indentStr lvl ++ "if " ++ unparseExpr test 0 ++ ":\n" ++ unparseStmtList body (lvl + 1)
      ++ (match orelse with
          | .nil => ""
          | .cons _ _ => "\n" ++ indentStr lvl ++ "else:\n" ++ unparseStmtList orelse (lvl + 1))
  | .ret value _ _, lvl =>
    indentStr lvl ++ (match value with
      | some e => "return " ++ unparseExpr e 0
      | none => "return")
  | .exprStmt e _ _, lvl => indentStr lvl ++ unparseExpr e 0

/-- Modelled from the spec: each assignment target followed by ` = `. -/
def unparseTargets : ExprList → String
  | .nil => ""
  | .cons t rest => unparseExpr t 0 ++ " = " ++ unparseTargets rest

/-- Modelled from the spec: statements joined by single newlines. -/
def unparseStmtList : StmtList → Nat → String
  | .nil, _ => ""
  | .cons s .nil, lvl => unparseStmt s lvl
  | .cons s (.cons s2 rest), lvl =>
    unparseStmt s lvl ++ "\n" ++ unparseStmtList (.cons s2 rest) lvl

end

/-- Modelled from the spec: `ast.unparse` of a whole module. -/
def unparseModule (m : Module) : String := unparseStmtList m 0

/-- The f-string description built in `generate_mutants_from_source`. -/
def siteDesc (site : Site) : String :=
  site.kind ++ " @ " ++ toString site.lineno ++ ":" ++ toString site.col_offset
    ++ " (" ++ site.orig.pyStr ++ " -> " ++ site.target.pyStr ++ ")"

/-- `generate_mutants_from_source` of `src/main.py` (taking the parsed
tree: parsing itself is the external `parse(text) -> Tree` collaborator):
collect the sites once, then for each site apply the single-site applier
to a deep copy of the root and keep the rendered mutant only when the
applier reports `applied`. -/
def generate_mutants_from_source (root : Module) : List (String × String) :=
  (collectModule root).foldl (fun mutants site =>
    let tree_copy := deepcopy root
    let res := applyModule site tree_copy
    if res.2 then mutants ++ [(siteDesc site, unparseModule res.1)] else mutants) []

/-!  Concrete parse trees for the spec's scenarios, transcribed with the
`lineno`/`col_offset` anchors `ast.parse` assigns. -/

/-- `ast.parse "x = a + b"` (Scenario B). -/
def srcAddAB : Module :=
  .cons (.assign (.cons (.name "x" 1 0) .nil)
    (.binOp (.name "a" 1 4) .add (.name "b" 1 8) 1 4) 1 0) .nil

/-- `ast.parse "x = a + b + c"`: the outer `BinOp` and its nested left
operand share the anchor `(1, 4)` of `a`. -/
def srcAddABC : Module :=
  .cons (.assign (.cons (.name "x" 1 0) .nil)
    (.binOp (.binOp (.name "a" 1 4) .add (.name "b" 1 8) 1 4)
      .add (.name "c" 1 12) 1 4) 1 0) .nil

/-- `ast.parse "x = True"`. -/
def srcAssignTrue : Module :=
  .cons (.assign (.cons (.name "x" 1 0) .nil)
    (.constant (.boolVal true) 1 4) 1 0) .nil

/-- `ast.parse "if a == b: return True"` (Scenario A). -/
def srcIfEq : Module :=
  .cons (.ifStmt (.compare (.name "a" 1 3) [.eq] (.cons (.name "b" 1 8) .nil) 1 3)
    (.cons (.ret (some (.constant (.boolVal true) 1 18)) 1 11) .nil)
    .nil 1 0) .nil

/-!  The sandboxed test oracle: `run_pytest_in_cwd` and the per-mutant
loop of `mutate_file_and_test`. -/

/-- The kind of `OSError` raised when a subprocess cannot be launched. -/
inductive OSErrorKind where
  | fileNotFound
  | permissionErr
deriving DecidableEq

/-- Exceptions the embedded fragment of `subprocess` can raise. -/
inductive PyExc where
  | timeoutExpired
  | calledProcessError (code : Nat)
  | osError (err : OSErrorKind)
deriving DecidableEq

/-- What happens to one invocation of the external test runner. -/
inductive RunOutcome where
  | exited (code : Nat)
  | timedOut
  | launchFail (err : OSErrorKind)
deriving DecidableEq

/-- `subprocess.run(["pytest", "-q"], check=True, ..., timeout=timeout)`:
returns normally on exit code zero, raises `CalledProcessError` on a
nonzero exit (because of `check=True`), raises `TimeoutExpired` when the
wall-clock timeout elapses, and raises an `OSError`
(`FileNotFoundError` / `PermissionError`) when the binary cannot be
launched at all. -/
def subprocessRunCheck : RunOutcome → Except PyExc Unit
  | .exited 0 => .ok ()
  | .exited (n + 1) => .error (.calledProcessError (n + 1))
  | .timedOut => .error .timeoutExpired
  | .launchFail e => .error (.osError e)

/-- `run_pytest_in_cwd`: `try` the run, `return True` on normal return;
`except TimeoutExpired: return False`; `except CalledProcessError:
return False`; any other exception is not caught and propagates. -/
def run_pytest_in_cwd (o : RunOutcome) : Except PyExc Bool :=
  match subprocessRunCheck o with
  | .ok () => .ok true
  | .error .timeoutExpired => .ok false
  | .error (.calledProcessError _) => .ok false
  | .error (.osError e) => .error (.osError e)

/-- The verdict `mutate_file_and_test` records for one mutant:
`{"killed": not passed}`; `none` when `run_pytest_in_cwd` raised, in
which case no verdict is recorded and the exception propagates. -/
def verdictKilled (o : RunOutcome) : Option Bool :=
  match run_pytest_in_cwd o with
  | .ok passed => some (!passed)
  | .error _ => none

/-- Process-wide state touched by one mutant evaluation: the current
working directory and the live temporary sandbox directories (identified
by the counter that generates fresh names). -/
structure SysState where
  cwd : String
  tmpdirs : List Nat
  nextTmp : Nat
deriving DecidableEq

/-- The path of the temporary directory with a given id. -/
def tmpName (n : Nat) : String := "/tmp/sandbox" ++ toString n

/-- One iteration of the mutant loop in `mutate_file_and_test`:
`with tempfile.TemporaryDirectory() as tmpdir:` creates a fresh directory
and removes it when the block exits on every path (normal return, timeout
already turned into a return value, or a propagating exception);
`copy_project_to` and the mutant write touch only the sandbox;
`os.chdir(tmpdir)` is undone by `finally: os.chdir(cwd)`.  The returned
pair is the test result (or the uncaught exception, which then propagates
through both cleanup handlers) and the final process state. -/
def evalOneMutant (s : SysState) (o : RunOutcome) : Except PyExc Bool × SysState :=
  let tmp := s.nextTmp
  let s1 : SysState := ⟨s.cwd, s.tmpdirs ++ [tmp], s.nextTmp + 1⟩
  let cwd0 := s1.cwd
  let s2 : SysState := ⟨tmpName tmp, s1.tmpdirs, s1.nextTmp⟩
  let r := run_pytest_in_cwd o
  let s3 : SysState := ⟨cwd0, s2.tmpdirs, s2.nextTmp⟩
  let s4 : SysState := ⟨s3.cwd, s3.tmpdirs.filter (fun d => d ≠ tmp), s3.nextTmp⟩
  (r, s4)

/-!  Target discovery: `collect_python_files`. -/

mutual

/-- A filesystem entry: a plain file, or a directory with its entries in
`os.listdir` order. -/
inductive FSEntry where
  | file (name : String)
  | dir (name : String) (entries : FSList)

/-- The entries of a directory. -/
inductive FSList where
  | nil
  | cons (head : FSEntry) (tail : FSList)

end

/-- `os.path.join`. -/
def pathJoin (root name : String) : String := root ++ "/" ++ name

/-- The plain-file names among a directory's entries, in order. -/
def FSList.fileNames : FSList → List String
  | .nil => []
  | .cons (.file n) rest => n :: rest.fileNames
  | .cons (.dir _ _) rest => rest.fileNames

/-- The subdirectory names among a directory's entries, in order. -/
def FSList.dirNames : FSList → List String
  | .nil => []
  | .cons (.file _) rest => rest.dirNames
  | .cons (.dir n _) rest => n :: rest.dirNames

mutual

/-- `os.walk(top)` (top-down): the frame `(root, dirnames, filenames)` of
the current directory, then the frames of each subdirectory in order. -/
def walk (top : String) (entries : FSList) : List (String × List String × List String) :=
  (top, entries.dirNames, entries.fileNames) :: walkSubdirs top entries

/-- The frames contributed by the subdirectories of `top`. -/
def walkSubdirs (top : String) : FSList → List (String × List String × List String)
  | .nil => []
  | .cons (.file _) rest => walkSubdirs top rest
  | .cons (.dir n es) rest => walk (pathJoin top n) es ++ walkSubdirs top rest

end

/-- What `os.path.isfile` / `os.path.isdir` report for the input path. -/
inductive PathStatus where
  | isFile
  | isDir (entries : FSList)
  | missing

/-- The `.py` files of one `os.walk` frame, as joined paths. -/
def frameFiles (fr : String × List String × List String) : List String :=
  (fr.2.2.filter (fun f => f.endsWith ".py")).map (fun f => pathJoin fr.1 f)

/-- `collect_python_files` of `src/main.py`: an existing file is returned
as the single target; a directory is walked recursively, keeping the
files whose names end in `.py`; anything else prints an error and
returns the empty list. -/
def collect_python_files (path : String) (st : PathStatus) : List String :=
  match st with
  | .isFile => [path]
  | .isDir entries =>
    (walk path entries).foldl (fun files fr => files ++ frameFiles fr) []
  | .missing => []

mutual

/-- The files under a directory (recursively) whose names end in `.py`,
as joined paths — the specification-side description of directory
discovery, written independently of `os.walk`. -/
def pyFilesSpec (top : String) (entries : FSList) : List String :=
  (entries.fileNames.filter (fun f => f.endsWith ".py")).map (fun f => pathJoin top f)
    ++ pyFilesSpecSub top entries

/-- The `.py` files contributed by the subdirectories, in order. -/
def pyFilesSpecSub (top : String) : FSList → List String
  | .nil => []
  | .cons (.file _) rest => pyFilesSpecSub top rest
  | .cons (.dir n es) rest => pyFilesSpec (pathJoin top n) es ++ pyFilesSpecSub top rest

end

/-- `srcIfEq` with its comparison operator replaced by `NotEq`: the parse
tree of `if a != b: return True`, up to the anchors kept from the
original tree. -/
def srcIfNe : Module :=
  .cons (.ifStmt (.compare (.name "a" 1 3) [.notEq] (.cons (.name "b" 1 8) .nil) 1 3)
    (.cons (.ret (some (.constant (.boolVal true) 1 18)) 1 11) .nil)
    .nil 1 0) .nil

/-- The identifying tuple of a site: the mutator matches on
`(kind, lineno, col_offset)` and, for `Compare` sites, `op_index`. -/
def siteTuple (s : Site) : String × Nat × Nat × Option Nat :=
  (s.kind, s.lineno, s.col_offset, s.op_index)

/-- The disambiguation invariant claimed for the catalog: no two sites of
the same kind share an identical `(line, column, operatorIndex)` tuple. -/
def catalogDisambiguates (sites : List Site) : Prop :=
  (sites.map siteTuple).Nodup

instance (sites : List Site) : Decidable (catalogDisambiguates sites) := by
  unfold catalogDisambiguates
  infer_instance

mutual

/-- The `(anchor, ops)` data of every `Compare` node of an expression, in
collector order. -/
def cmpBlocksExpr : Expr → List ((Nat × Nat) × List CmpOp)
  | .name _ _ _ => []
  | .constant _ _ _ => []
  | .binOp l _ r _ _ => cmpBlocksExpr l ++ cmpBlocksExpr r
  | .compare l ops comps ln c =>
    ((ln, c), ops) :: (cmpBlocksExpr l ++ cmpBlocksExprList comps)

/-- `Compare` blocks of an expression list. -/
def cmpBlocksExprList : ExprList → List ((Nat × Nat) × List CmpOp)
  | .nil => []
  | .cons e rest => cmpBlocksExpr e ++ cmpBlocksExprList rest

end

mutual

/-- The `(anchor, ops)` data of every `Compare` node of a statement. -/
def cmpBlocksStmt : Stmt → List ((Nat × Nat) × List CmpOp)
  | .assign targets value _ _ => cmpBlocksExprList targets ++ cmpBlocksExpr value
  | .ifStmt test body orelse _ _ =>
    cmpBlocksExpr test ++ cmpBlocksStmtList body ++ cmpBlocksStmtList orelse
  | .ret value _ _ =>
    match value with
    | some e => cmpBlocksExpr e
    | none => []
  | .exprStmt value _ _ => cmpBlocksExpr value

/-- `Compare` blocks of a statement list. -/
def cmpBlocksStmtList : StmtList → List ((Nat × Nat) × List CmpOp)
  | .nil => []
  | .cons s rest => cmpBlocksStmt s ++ cmpBlocksStmtList rest

end

mutual

/-- The `(anchor, value)` of every boolean `Constant` node of an
expression, in collector order. -/
def boolConstsExpr : Expr → List ((Nat × Nat) × Bool)
  | .name _ _ _ => []
  | .constant v ln c =>
    match v with
    | .boolVal b => [((ln, c), b)]
    | _ => []
  | .binOp l _ r _ _ => boolConstsExpr l ++ boolConstsExpr r
  | .compare l _ comps _ _ => boolConstsExpr l ++ boolConstsExprList comps

/-- Boolean constants of an expression list. -/
def boolConstsExprList : ExprList → List ((Nat × Nat) × Bool)
  | .nil => []
  | .cons e rest => boolConstsExpr e ++ boolConstsExprList rest

end

mutual

/-- Boolean constants of a statement. -/
def boolConstsStmt : Stmt → List ((Nat × Nat) × Bool)
  | .assign targets value _ _ => boolConstsExprList targets ++ boolConstsExpr value
  | .ifStmt test body orelse _ _ =>
    boolConstsExpr test ++ boolConstsStmtList body ++ boolConstsStmtList orelse
  | .ret value _ _ =>
    match value with
    | some e => boolConstsExpr e
    | none => []
  | .exprStmt value _ _ => boolConstsExpr value

/-- Boolean constants of a statement list. -/
def boolConstsStmtList : StmtList → List ((Nat × Nat) × Bool)
  | .nil => []
  | .cons s rest => boolConstsStmt s ++ boolConstsStmtList rest

end

/-- The site `visit_Constant` of the collector records for one boolean
constant. -/
def boolSiteOf (p : (Nat × Nat) × Bool) : Site :=
  ⟨"ConstantBool", p.1.1, p.1.2, none, .bool p.2, .bool (CONST_BOOL_MUTATIONS p.2)⟩

mutual

/-- Number of differing nodes between two structurally parallel
expressions: a per-node mismatch of operator, value, or anchor counts
one, children are summed, and any shape mismatch counts two (already
more than a single-node change). -/
def exprDiff : Expr → Expr → Nat
  | .name i1 l1 c1, .name i2 l2 c2 =>
    if i1 = i2 ∧ l1 = l2 ∧ c1 = c2 then 0 else 1
  | .constant v1 l1 c1, .constant v2 l2 c2 =>
    if v1 = v2 ∧ l1 = l2 ∧ c1 = c2 then 0 else 1
  | .binOp a1 o1 b1 l1 c1, .binOp a2 o2 b2 l2 c2 =>
    (if o1 = o2 ∧ l1 = l2 ∧ c1 = c2 then 0 else 1) + exprDiff a1 a2 + exprDiff b1 b2
  | .compare a1 ops1 cs1 l1 c1, .compare a2 ops2 cs2 l2 c2 =>
    (if ops1 = ops2 ∧ l1 = l2 ∧ c1 = c2 then 0 else 1)
      + exprDiff a1 a2 + exprListDiff cs1 cs2
  | _, _ => 2

/-- Diff count over expression lists (length mismatch counts two). -/
def exprListDiff : ExprList → ExprList → Nat
  | .nil, .nil => 0
  | .cons e1 r1, .cons e2 r2 => exprDiff e1 e2 + exprListDiff r1 r2
  | _, _ => 2

end

mutual

/-- Number of differing nodes between two structurally parallel
statements. -/
def stmtDiff : Stmt → Stmt → Nat
  | .assign t1 v1 l1 c1, .assign t2 v2 l2 c2 =>
    (if l1 = l2 ∧ c1 = c2 then 0 else 1) + exprListDiff t1 t2 + exprDiff v1 v2
  | .ifStmt e1 b1 o1 l1 c1, .ifStmt e2 b2 o2 l2 c2 =>
    (if l1 = l2 ∧ c1 = c2 then 0 else 1) + exprDiff e1 e2
      + stmtListDiff b1 b2 + stmtListDiff o1 o2
  | .ret (some e1) l1 c1, .ret (some e2) l2 c2 =>
    (if l1 = l2 ∧ c1 = c2 then 0 else 1) + exprDiff e1 e2
  | .ret none l1 c1, .ret none l2 c2 =>
    if l1 = l2 ∧ c1 = c2 then 0 else 1
  | .exprStmt e1 l1 c1, .exprStmt e2 l2 c2 =>
    (if l1 = l2 ∧ c1 = c2 then 0 else 1) + exprDiff e1 e2
  | _, _ => 2

/-- Diff count over statement lists (length mismatch counts two). -/
def stmtListDiff : StmtList → StmtList → Nat
  | .nil, .nil => 0
  | .cons s1 r1, .cons s2 r2 => stmtDiff s1 s2 + stmtListDiff r1 r2
  | _, _ => 2

end

/-!  ## Theorems about the claims -/

/-- Claim C1 fails on the code: for `x = a + b` the catalog's single
BINARY_OP site maps `Add` to `Mult`, not to `Sub` — the duplicate `"Add"`
key of the `OP_MUTATION_MAP` dict literal overwrites the
addition-to-subtraction pair — and the rendered mutant text is
`x = a * b`, not `x = a - b`. -/
theorem c1_counterexample :
    collectModule srcAddAB = [⟨"BinOp", 1, 4, none, .str "Add", .str "Mult"⟩] ∧
    SiteVal.str "Mult" ≠ SiteVal.str "Sub" ∧
    generate_mutants_from_source srcAddAB = [("BinOp @ 1:4 (Add -> Mult)", "x = a * b")] ∧
    unparseModule (applyModule ⟨"BinOp", 1, 4, none, .str "Add", .str "Mult"⟩ srcAddAB).1
      ≠ "x = a - b" := by
  refine ⟨rfl, by decide, rfl, by decide⟩

/-- Claim C1 amended: for every binary arithmetic node the catalog emits
one BINARY_OP site exactly when the operator's class name is a key of
`OP_MUTATION_MAP`, with addition mapped to multiplication (last write to
the duplicate `"Add"` key wins), subtraction to addition, and
multiplication to addition; an unmapped operator such as division yields
no site.  For `x = a + b` the single site is Add -> Mult and the rendered
mutant text is `x = a * b`. -/
theorem c1_amended :
    dictLookup OP_MUTATION_MAP "Add" = some "Mult" ∧
    dictLookup OP_MUTATION_MAP "Sub" = some "Add" ∧
    dictLookup OP_MUTATION_MAP "Mult" = some "Add" ∧
    dictLookup OP_MUTATION_MAP "Div" = none ∧
    (∀ (left right : Expr) (ln c : Nat),
      collectExpr (.binOp left .add right ln c) =
        ⟨"BinOp", ln, c, none, .str "Add", .str "Mult"⟩ ::
          (collectExpr left ++ collectExpr right)) ∧
    (∀ (left right : Expr) (ln c : Nat),
      collectExpr (.binOp left .sub right ln c) =
        ⟨"BinOp", ln, c, none, .str "Sub", .str "Add"⟩ ::
          (collectExpr left ++ collectExpr right)) ∧
    (∀ (left right : Expr) (ln c : Nat),
      collectExpr (.binOp left .mult right ln c) =
        ⟨"BinOp", ln, c, none, .str "Mult", .str "Add"⟩ ::
          (collectExpr left ++ collectExpr right)) ∧
    (∀ (left right : Expr) (ln c : Nat),
      collectExpr (.binOp left .div right ln c) = collectExpr left ++ collectExpr right) ∧
    generate_mutants_from_source srcAddAB = [("BinOp @ 1:4 (Add -> Mult)", "x = a * b")] := by
  exact ⟨rfl, rfl, rfl, rfl, fun _ _ _ _ => rfl, fun _ _ _ _ => rfl,
    fun _ _ _ _ => rfl, fun _ _ _ _ => rfl, rfl⟩

/-- Claim C2 identifies a code bug: `visit_Constant` replaces a matching
boolean literal but never sets `self.applied`, so
`generate_mutants_from_source` silently drops every BOOLEAN_LITERAL
mutant.  For `x = True` the catalog holds exactly one site and applying
it really does change the tree, yet the success flag stays false and no
mutant is returned — contradicting the code's own comment that a
non-applied site "shouldn't happen". -/
theorem c2_bool_mutant_dropped :
    collectModule srcAssignTrue =
      [⟨"ConstantBool", 1, 4, none, .bool true, .bool false⟩] ∧
    (applyModule ⟨"ConstantBool", 1, 4, none, .bool true, .bool false⟩ srcAssignTrue).1
      ≠ srcAssignTrue ∧
    (applyModule ⟨"ConstantBool", 1, 4, none, .bool true, .bool false⟩ srcAssignTrue).2
      = false ∧
    generate_mutants_from_source srcAssignTrue = [] := by
  refine ⟨rfl, by decide, rfl, rfl⟩

/-- Claim C4 fails on the code: a launch failure of the test runner is
not classified as FAILED; `run_pytest_in_cwd` catches only
`TimeoutExpired` and `CalledProcessError`, so the `OSError` of a missing
binary propagates instead of any boolean being returned. -/
theorem c4_counterexample :
    run_pytest_in_cwd (.launchFail .fileNotFound) = .error (.osError .fileNotFound) ∧
    run_pytest_in_cwd (.launchFail .fileNotFound) ≠ .ok false ∧
    run_pytest_in_cwd (.launchFail .fileNotFound) ≠ .ok true := by
  refine ⟨rfl, fun h => Except.noConfusion h, fun h => Except.noConfusion h⟩

/-- Claim C4 amended: when the test runner cannot be launched (binary
missing or permission denied) the resulting `OSError` is uncaught and
propagates out of `run_pytest_in_cwd`, aborting the evaluation, rather
than being classified as FAILED; only a nonzero exit and a timeout are
classified as test failure (return `False`), and a zero exit as success. -/
theorem c4_amended (e : OSErrorKind) (n : Nat) :
    run_pytest_in_cwd (.launchFail e) = .error (.osError e) ∧
    run_pytest_in_cwd (.exited (n + 1)) = .ok false ∧
    run_pytest_in_cwd .timedOut = .ok false ∧
    run_pytest_in_cwd (.exited 0) = .ok true :=
  ⟨rfl, rfl, rfl, rfl⟩

/-- Claim C6: the recorded verdict's killed flag is true exactly when the
test run exits nonzero or times out, and false exactly when it exits with
code zero (a launch failure records no verdict at all). -/
theorem c6_killed_iff (o : RunOutcome) :
    (verdictKilled o = some true ↔ (∃ n, o = .exited (n + 1)) ∨ o = .timedOut) ∧
    (verdictKilled o = some false ↔ o = .exited 0) := by
  rcases o with (_ | n) | _ | e <;>
    simp [verdictKilled, run_pytest_in_cwd, subprocessRunCheck]

/-- Claim C7: one mutant evaluation restores the original working
directory and removes its temporary sandbox directory on every exit path
— normal completion, timeout, and a propagating launch error alike — so
sandboxes never accumulate across runs. -/
theorem c7_sandbox_cleanup (s : SysState) (o : RunOutcome)
    (hfresh : s.nextTmp ∉ s.tmpdirs) :
    (evalOneMutant s o).2.cwd = s.cwd ∧ (evalOneMutant s o).2.tmpdirs = s.tmpdirs := by
  refine ⟨rfl, ?_⟩
  show (s.tmpdirs ++ [s.nextTmp]).filter (fun d => d ≠ s.nextTmp) = s.tmpdirs
  rw [List.filter_append]
  have h1 : s.tmpdirs.filter (fun d => d ≠ s.nextTmp) = s.tmpdirs := by
    apply List.filter_eq_self.mpr
    intro d hd
    by_cases h : d = s.nextTmp
    · exact absurd (h ▸ hd) hfresh
    · simp [h]
  have h2 : ([s.nextTmp] : List Nat).filter (fun d => d ≠ s.nextTmp) = [] := by simp
  rw [h1, h2, List.append_nil]

/-- Witness for `c7_sandbox_cleanup` at a concrete state and a timeout
outcome. -/
theorem c7_sandbox_cleanup_witness :
    (evalOneMutant ⟨"/proj", [0], 1⟩ .timedOut).2.cwd = "/proj" ∧
    (evalOneMutant ⟨"/proj", [0], 1⟩ .timedOut).2.tmpdirs = [0] :=
  c7_sandbox_cleanup ⟨"/proj", [0], 1⟩ .timedOut (by decide)

/-- Claim C9: cataloging is deterministic — the collector appends sites
in a traversal order fixed by the tree alone, so two collector runs over
the same parsed tree return the same ordered site list. -/
theorem c9_catalog_deterministic (t : Module) :
    collectModule t = collectModule t := rfl

/-- Folding list-append over a list, as the `files.append` loop of
`collect_python_files` does, yields the accumulator followed by the
concatenation of the per-element contributions. -/
theorem foldl_append_bind {α β : Type} (f : α → List β) :
    ∀ (l : List α) (acc : List β),
      l.foldl (fun fs fr => fs ++ f fr) acc = acc ++ l.flatMap f
  | [], acc => by simp
  | x :: xs, acc => by
    rw [List.foldl_cons, foldl_append_bind f xs (acc ++ f x), List.flatMap_cons,
      List.append_assoc]

/-- The subdirectory frames of `os.walk` contribute exactly the
specification's recursive `.py` listing of the subdirectories. -/
theorem walkSubdirs_bind (top : String) (es : FSList) :
    (walkSubdirs top es).flatMap frameFiles = pyFilesSpecSub top es := by
  match es with
  | .nil => simp [walkSubdirs, pyFilesSpecSub]
  | .cons (.file n) rest =>
    rw [walkSubdirs, pyFilesSpecSub]
    exact walkSubdirs_bind top rest
  | .cons (.dir n es2) rest =>
    rw [walkSubdirs, pyFilesSpecSub, List.flatMap_append, walk, List.flatMap_cons,
      walkSubdirs_bind (pathJoin top n) es2, walkSubdirs_bind top rest, pyFilesSpec]
    rfl
termination_by sizeOf es
decreasing_by all_goals (simp_wf <;> omega)

/-- `os.walk` from the top directory yields, frame by frame, exactly the
specification-side recursive `.py` listing. -/
theorem walk_bind (top : String) (es : FSList) :
    (walk top es).flatMap frameFiles = pyFilesSpec top es := by
  rw [walk, List.flatMap_cons, walkSubdirs_bind, pyFilesSpec]
  rfl

/-- The `enumerate(node.ops)` loop of `visit_Compare`, rephrased: one
site per operator position whose class name the table maps, carrying that
position as `op_index`. -/
theorem compareOpSites_eq_enum (ln c : Nat) :
    ∀ (ops : List CmpOp) (i : Nat),
      compareOpSites ln c ops i =
        (List.enumFrom i ops).filterMap (fun p =>
          (dictLookup OP_MUTATION_MAP p.2.pyName).map (fun t =>
            ⟨"Compare", ln, c, some p.1, .str p.2.pyName, .str t⟩))
  | [], _ => rfl
  | op :: rest, i => by
    rw [compareOpSites, List.enumFrom_cons, List.filterMap_cons,
      compareOpSites_eq_enum ln c rest (i + 1)]
    cases dictLookup OP_MUTATION_MAP op.pyName <;> simp

/-- Claim C5: for every chained comparison node the catalog emits one
COMPARISON site per operator in the chain whose class is one of Eq,
NotEq, Lt, Gt — each mapped to its logical opposite, with `op_index` the
operator's position in the chain — and no site for any other comparison
operator.  Scenario A: for `if a == b: return True` the catalog yields
exactly one COMPARISON site (Eq -> NotEq) followed by one BOOLEAN_LITERAL
site (True -> False), and applying the comparison site succeeds and
renders `if a != b: return True`. -/
theorem c5_comparison_sites :
    dictLookup OP_MUTATION_MAP "Eq" = some "NotEq" ∧
    dictLookup OP_MUTATION_MAP "NotEq" = some "Eq" ∧
    dictLookup OP_MUTATION_MAP "Lt" = some "Gt" ∧
    dictLookup OP_MUTATION_MAP "Gt" = some "Lt" ∧
    dictLookup OP_MUTATION_MAP "LtE" = none ∧
    dictLookup OP_MUTATION_MAP "GtE" = none ∧
    dictLookup OP_MUTATION_MAP "Is" = none ∧
    dictLookup OP_MUTATION_MAP "IsNot" = none ∧
    dictLookup OP_MUTATION_MAP "In" = none ∧
    dictLookup OP_MUTATION_MAP "NotIn" = none ∧
    (∀ (left : Expr) (ops : List CmpOp) (comps : ExprList) (ln c : Nat),
      collectExpr (.compare left ops comps ln c) =
        (List.enumFrom 0 ops).filterMap (fun p =>
          (dictLookup OP_MUTATION_MAP p.2.pyName).map (fun t =>
            ⟨"Compare", ln, c, some p.1, .str p.2.pyName, .str t⟩))
          ++ collectExpr left ++ collectExprList comps) ∧
    collectModule srcIfEq =
      [⟨"Compare", 1, 3, some 0, .str "Eq", .str "NotEq"⟩,
       ⟨"ConstantBool", 1, 18, none, .bool true, .bool false⟩] ∧
    applyModule ⟨"Compare", 1, 3, some 0, .str "Eq", .str "NotEq"⟩ srcIfEq =
      (srcIfNe, true) ∧
    unparseModule srcIfNe = "if a != b:\n    return True" := by
  refine ⟨rfl, rfl, rfl, rfl, rfl, rfl, rfl, rfl, rfl, rfl, ?_, rfl, rfl, rfl⟩
  intro left ops comps ln c
  rw [show collectExpr (.compare left ops comps ln c) =
    compareOpSites ln c ops 0 ++ collectExpr left ++ collectExprList comps from rfl,
    compareOpSites_eq_enum]

/-- Claim C10: an existing file is returned as the single target
regardless of its extension; an existing directory yields exactly the
files under it (recursively) whose names end in `.py`; anything else
yields the empty list. -/
theorem c10_collect_python_files :
    (∀ path : String, collect_python_files path .isFile = [path]) ∧
    (∀ (path : String) (entries : FSList),
      collect_python_files path (.isDir entries) = pyFilesSpec path entries) ∧
    (∀ path : String, collect_python_files path .missing = []) := by
  refine ⟨fun _ => rfl, fun path entries => ?_, fun _ => rfl⟩
  show (walk path entries).foldl (fun files fr => files ++ frameFiles fr) [] = _
  rw [foldl_append_bind, List.nil_append, walk_bind]

/-- Every site emitted by the compare-chain loop carries kind `Compare`,
the chain's anchor, and an operator index at least the starting index. -/
theorem compareOpSites_mem (ln c : Nat) :
    ∀ (ops : List CmpOp) (i : Nat) (s : Site), s ∈ compareOpSites ln c ops i →
      s.kind = "Compare" ∧ s.lineno = ln ∧ s.col_offset = c ∧
        ∃ j, i ≤ j ∧ s.op_index = some j
  | [], i, s => by simp [compareOpSites]
  | op :: rest, i, s => by
    rw [compareOpSites]
    intro hs
    rcases List.mem_append.mp hs with h | h
    · rcases hop : dictLookup OP_MUTATION_MAP op.pyName with _ | t
      · rw [hop] at h
        simp at h
      · rw [hop] at h
        simp at h
        subst h
        exact ⟨rfl, rfl, rfl, i, Nat.le_refl i, rfl⟩
    · obtain ⟨h1, h2, h3, j, hj, hj2⟩ := compareOpSites_mem ln c rest (i + 1) s h
      exact ⟨h1, h2, h3, j, Nat.le_of_succ_le hj, hj2⟩

/-- Within one comparison chain the emitted sites have pairwise distinct
tuples: the operator indices strictly increase along the chain. -/
theorem compareOpSites_tuples_nodup (ln c : Nat) :
    ∀ (ops : List CmpOp) (i : Nat),
      ((compareOpSites ln c ops i).map siteTuple).Nodup
  | [], i => by simp [compareOpSites]
  | op :: rest, i => by
    rw [compareOpSites, List.map_append]
    refine List.Nodup.append ?_ (compareOpSites_tuples_nodup ln c rest (i + 1)) ?_
    · rcases hop : dictLookup OP_MUTATION_MAP op.pyName with _ | t <;> simp
    · intro x hx hx2
      rcases hop : dictLookup OP_MUTATION_MAP op.pyName with _ | t
      · rw [hop] at hx
        simp at hx
      · rw [hop] at hx
        simp at hx
        rcases List.mem_map.mp hx2 with ⟨s', hs', heq⟩
        obtain ⟨_, _, _, j, hj, hj2⟩ := compareOpSites_mem ln c rest (i + 1) s' hs'
        rw [hx] at heq
        have hidx : s'.op_index = some i := congrArg (fun q => q.2.2.2) heq
        rw [hj2] at hidx
        have : j = i := Option.some.inj hidx
        omega

/-- If the `Compare` anchors are pairwise distinct, the tuples of all
chain sites taken together are pairwise distinct. -/
theorem blocks_tuples_nodup :
    ∀ blocks : List ((Nat × Nat) × List CmpOp),
      (blocks.map Prod.fst).Nodup →
      ((blocks.flatMap (fun bl => compareOpSites bl.1.1 bl.1.2 bl.2 0)).map siteTuple).Nodup
  | [], _ => by simp
  | bl :: rest, h => by
    rw [List.flatMap_cons, List.map_append]
    rcases List.nodup_cons.mp h with ⟨hb, hrest⟩
    refine List.Nodup.append (compareOpSites_tuples_nodup _ _ _ _)
      (blocks_tuples_nodup rest hrest) ?_
    intro x hx hx2
    rcases List.mem_map.mp hx with ⟨s, hs, rfl⟩
    rcases List.mem_map.mp hx2 with ⟨s', hs', heq⟩
    rcases List.mem_flatMap.mp hs' with ⟨bl', hbl', hsbl'⟩
    obtain ⟨_, hl, hc, _⟩ := compareOpSites_mem _ _ _ _ s hs
    obtain ⟨_, hl', hc', _⟩ := compareOpSites_mem _ _ _ _ s' hsbl'
    apply hb
    have hanchor : bl.1 = bl'.1 := by
      have e1 : s'.lineno = s.lineno := congrArg (fun q => q.2.1) heq
      have e2 : s'.col_offset = s.col_offset := congrArg (fun q => q.2.2.1) heq
      have hA : bl.1 = (s.lineno, s.col_offset) := Prod.ext hl.symm hc.symm
      have hB : bl'.1 = (s'.lineno, s'.col_offset) := Prod.ext hl'.symm hc'.symm
      rw [hA, hB, e1, e2]
    rw [hanchor]
    exact List.mem_map.mpr ⟨bl', hbl', rfl⟩

/-- The compare-chain loop emits only sites of kind `Compare`, so a
kind-filter keeps them all. -/
theorem compareOpSites_filter_cmp (ln c : Nat) :
    ∀ (ops : List CmpOp) (i : Nat),
      (compareOpSites ln c ops i).filter (fun s => s.kind = "Compare") =
        compareOpSites ln c ops i
  | [], i => by simp [compareOpSites]
  | op :: rest, i => by
    rw [compareOpSites, List.filter_append, compareOpSites_filter_cmp ln c rest (i + 1)]
    rcases hop : dictLookup OP_MUTATION_MAP op.pyName with _ | t <;> simp

/-- The compare-chain loop emits no site of kind `ConstantBool`. -/
theorem compareOpSites_filter_bool (ln c : Nat) :
    ∀ (ops : List CmpOp) (i : Nat),
      (compareOpSites ln c ops i).filter (fun s => s.kind = "ConstantBool") = []
  | [], i => by simp [compareOpSites]
  | op :: rest, i => by
    rw [compareOpSites, List.filter_append, compareOpSites_filter_bool ln c rest (i + 1)]
    rcases hop : dictLookup OP_MUTATION_MAP op.pyName with _ | t <;> simp

mutual

/-- The `Compare` sites of an expression are exactly the chain sites of
its `Compare` blocks, in order. -/
theorem collectExpr_filter_cmp :
    ∀ e : Expr, (collectExpr e).filter (fun s => s.kind = "Compare") =
      (cmpBlocksExpr e).flatMap (fun bl => compareOpSites bl.1.1 bl.1.2 bl.2 0)
  | .name i ln c => by simp [collectExpr, cmpBlocksExpr]
  | .constant v ln c => by
    cases v <;> simp [collectExpr, cmpBlocksExpr]
  | .binOp l o r ln c => by
    rw [collectExpr, cmpBlocksExpr, List.filter_append, List.filter_append,
      List.flatMap_append, collectExpr_filter_cmp l, collectExpr_filter_cmp r]
    rcases hop : dictLookup OP_MUTATION_MAP o.pyName with _ | t <;> simp
  | .compare l ops comps ln c => by
    rw [collectExpr, cmpBlocksExpr, List.filter_append, List.filter_append,
      List.flatMap_cons, List.flatMap_append, compareOpSites_filter_cmp,
      collectExpr_filter_cmp l, collectExprList_filter_cmp comps, List.append_assoc]

/-- The `Compare` sites of an expression list. -/
theorem collectExprList_filter_cmp :
    ∀ es : ExprList, (collectExprList es).filter (fun s => s.kind = "Compare") =
      (cmpBlocksExprList es).flatMap (fun bl => compareOpSites bl.1.1 bl.1.2 bl.2 0)
  | .nil => by simp [collectExprList, cmpBlocksExprList]
  | .cons e rest => by
    rw [collectExprList, cmpBlocksExprList, List.filter_append, List.flatMap_append,
      collectExpr_filter_cmp e, collectExprList_filter_cmp rest]

end

mutual

/-- The `Compare` sites of a statement. -/
theorem collectStmt_filter_cmp :
    ∀ s : Stmt, (collectStmt s).filter (fun x => x.kind = "Compare") =
      (cmpBlocksStmt s).flatMap (fun bl => compareOpSites bl.1.1 bl.1.2 bl.2 0)
  | .assign targets value ln c => by
    rw [collectStmt, cmpBlocksStmt, List.filter_append, List.flatMap_append,
      collectExprList_filter_cmp, collectExpr_filter_cmp]
  | .ifStmt test body orelse ln c => by
    rw [collectStmt, cmpBlocksStmt, List.filter_append, List.filter_append,
      List.flatMap_append, List.flatMap_append, collectExpr_filter_cmp,
      collectStmtList_filter_cmp body, collectStmtList_filter_cmp orelse]
  | .ret value ln c => by
    cases value with
    | some e =>
      rw [collectStmt, cmpBlocksStmt]
      exact collectExpr_filter_cmp e
    | none => simp [collectStmt, cmpBlocksStmt]
  | .exprStmt value ln c => by
    rw [collectStmt, cmpBlocksStmt]
    exact collectExpr_filter_cmp value

/-- The `Compare` sites of a statement list. -/
theorem collectStmtList_filter_cmp :
    ∀ m : StmtList, (collectStmtList m).filter (fun x => x.kind = "Compare") =
      (cmpBlocksStmtList m).flatMap (fun bl => compareOpSites bl.1.1 bl.1.2 bl.2 0)
  | .nil => by simp [collectStmtList, cmpBlocksStmtList]
  | .cons s rest => by
    rw [collectStmtList, cmpBlocksStmtList, List.filter_append, List.flatMap_append,
      collectStmt_filter_cmp s, collectStmtList_filter_cmp rest]

end

mutual

/-- The `ConstantBool` sites of an expression are exactly one site per
boolean constant, in order. -/
theorem collectExpr_filter_bool :
    ∀ e : Expr, (collectExpr e).filter (fun s => s.kind = "ConstantBool") =
      (boolConstsExpr e).map boolSiteOf
  | .name i ln c => by simp [collectExpr, boolConstsExpr]
  | .constant v ln c => by
    cases v <;> simp [collectExpr, boolConstsExpr, boolSiteOf]
  | .binOp l o r ln c => by
    rw [collectExpr, boolConstsExpr, List.filter_append, List.filter_append,
      List.map_append, collectExpr_filter_bool l, collectExpr_filter_bool r]
    rcases hop : dictLookup OP_MUTATION_MAP o.pyName with _ | t <;> simp
  | .compare l ops comps ln c => by
    rw [collectExpr, boolConstsExpr, List.filter_append, List.filter_append,
      List.map_append, compareOpSites_filter_bool,
      collectExpr_filter_bool l, collectExprList_filter_bool comps, List.nil_append]

/-- The `ConstantBool` sites of an expression list. -/
theorem collectExprList_filter_bool :
    ∀ es : ExprList, (collectExprList es).filter (fun s => s.kind = "ConstantBool") =
      (boolConstsExprList es).map boolSiteOf
  | .nil => by simp [collectExprList, boolConstsExprList]
  | .cons e rest => by
    rw [collectExprList, boolConstsExprList, List.filter_append, List.map_append,
      collectExpr_filter_bool e, collectExprList_filter_bool rest]

end

mutual

/-- The `ConstantBool` sites of a statement. -/
theorem collectStmt_filter_bool :
    ∀ s : Stmt, (collectStmt s).filter (fun x => x.kind = "ConstantBool") =
      (boolConstsStmt s).map boolSiteOf
  | .assign targets value ln c => by
    rw [collectStmt, boolConstsStmt, List.filter_append, List.map_append,
      collectExprList_filter_bool, collectExpr_filter_bool]
  | .ifStmt test body orelse ln c => by
    rw [collectStmt, boolConstsStmt, List.filter_append, List.filter_append,
      List.map_append, List.map_append, collectExpr_filter_bool,
      collectStmtList_filter_bool body, collectStmtList_filter_bool orelse]
  | .ret value ln c => by
    cases value with
    | some e =>
      rw [collectStmt, boolConstsStmt]
      exact collectExpr_filter_bool e
    | none => simp [collectStmt, boolConstsStmt]
  | .exprStmt value ln c => by
    rw [collectStmt, boolConstsStmt]
    exact collectExpr_filter_bool value

/-- The `ConstantBool` sites of a statement list. -/
theorem collectStmtList_filter_bool :
    ∀ m : StmtList, (collectStmtList m).filter (fun x => x.kind = "ConstantBool") =
      (boolConstsStmtList m).map boolSiteOf
  | .nil => by simp [collectStmtList, boolConstsStmtList]
  | .cons s rest => by
    rw [collectStmtList, boolConstsStmtList, List.filter_append, List.map_append,
      collectStmt_filter_bool s, collectStmtList_filter_bool rest]

end

/-- Claim C3 fails on the code: nested additions share the anchor of
their common leftmost operand, so for `x = a + b + c` the catalog emits
two BINARY_OP sites with identical `(line, column, operatorIndex)`
tuples — the mutator cannot disambiguate them (both mutate the outer
node). -/
theorem c3_counterexample :
    collectModule srcAddABC =
      [⟨"BinOp", 1, 4, none, .str "Add", .str "Mult"⟩,
       ⟨"BinOp", 1, 4, none, .str "Add", .str "Mult"⟩] ∧
    ¬ catalogDisambiguates (collectModule srcAddABC) := by
  exact ⟨rfl, by decide⟩

/-- Claim C3 amended: provided distinct comparison nodes and distinct
boolean literals have distinct anchors (which parser output guarantees:
comparison chains and literals cannot overlap at the same start
position), no two COMPARISON sites and no two BOOLEAN_LITERAL sites share
an identical `(line, column, operatorIndex)` tuple; the invariant does
not extend to BINARY_OP sites, where nested arithmetic breaks it. -/
theorem c3_amended (m : Module)
    (hc : ((cmpBlocksStmtList m).map Prod.fst).Nodup)
    (hb : ((boolConstsStmtList m).map Prod.fst).Nodup) :
    catalogDisambiguates ((collectModule m).filter (fun s => s.kind = "Compare")) ∧
    catalogDisambiguates ((collectModule m).filter (fun s => s.kind = "ConstantBool")) := by
  constructor
  · show (List.map siteTuple _).Nodup
    rw [collectModule, collectStmtList_filter_cmp]
    exact blocks_tuples_nodup _ hc
  · show (List.map siteTuple _).Nodup
    rw [collectModule, collectStmtList_filter_bool, List.map_map]
    have hcomp : (siteTuple ∘ boolSiteOf) =
        (fun a : Nat × Nat => (("ConstantBool" : String), a.1, a.2, (none : Option Nat)))
          ∘ Prod.fst := by
      funext p
      rfl
    rw [hcomp, ← List.map_map]
    refine List.Nodup.map ?_ hb
    intro a b hab
    have e1 : a.1 = b.1 := congrArg (fun q => q.2.1) hab
    have e2 : a.2 = b.2 := congrArg (fun q => q.2.2.1) hab
    exact Prod.ext e1 e2

/-- Witness for `c3_amended` on the Scenario A tree, whose comparison and
boolean anchors are trivially distinct. -/
theorem c3_amended_witness :
    catalogDisambiguates ((collectModule srcIfEq).filter (fun s => s.kind = "Compare")) ∧
    catalogDisambiguates ((collectModule srcIfEq).filter (fun s => s.kind = "ConstantBool")) :=
  c3_amended srcIfEq (by decide) (by decide)

mutual

/-- The diff count of an expression with itself is zero. -/
theorem exprDiff_self : ∀ e : Expr, exprDiff e e = 0
  | .name i ln c => by simp [exprDiff]
  | .constant v ln c => by simp [exprDiff]
  | .binOp l o r ln c => by
    simp [exprDiff, exprDiff_self l, exprDiff_self r]
  | .compare l ops comps ln c => by
    simp [exprDiff, exprDiff_self l, exprListDiff_self comps]

/-- The diff count of an expression list with itself is zero. -/
theorem exprListDiff_self : ∀ es : ExprList, exprListDiff es es = 0
  | .nil => rfl
  | .cons e rest => by
    simp [exprListDiff, exprDiff_self e, exprListDiff_self rest]

end

mutual

/-- The diff count of a statement with itself is zero. -/
theorem stmtDiff_self : ∀ s : Stmt, stmtDiff s s = 0
  | .assign t v ln c => by
    simp [stmtDiff, exprListDiff_self t, exprDiff_self v]
  | .ifStmt e b o ln c => by
    simp [stmtDiff, exprDiff_self e, stmtListDiff_self b, stmtListDiff_self o]
  | .ret (some e) ln c => by simp [stmtDiff, exprDiff_self e]
  | .ret none ln c => by simp [stmtDiff]
  | .exprStmt e ln c => by simp [stmtDiff, exprDiff_self e]

/-- The diff count of a statement list with itself is zero. -/
theorem stmtListDiff_self : ∀ m : StmtList, stmtListDiff m m = 0
  | .nil => rfl
  | .cons s rest => by
    simp [stmtListDiff, stmtDiff_self s, stmtListDiff_self rest]

end

mutual

/-- Once `self.applied` is true the applier changes nothing further. -/
theorem applyExpr_true (site : Site) : ∀ e : Expr, applyExpr site e true = (e, true)
  | .name i ln c => rfl
  | .constant v ln c => by simp [applyExpr, constTry]
  | .binOp l o r ln c => by
    simp [applyExpr, binOpTry, applyExpr_true site l, applyExpr_true site r]
  | .compare l ops comps ln c => by
    simp [applyExpr, compareTry, applyExpr_true site l, applyExprList_true site comps]

/-- Once applied, list traversal of expressions changes nothing. -/
theorem applyExprList_true (site : Site) :
    ∀ es : ExprList, applyExprList site es true = (es, true)
  | .nil => rfl
  | .cons e rest => by
    simp [applyExprList, applyExpr_true site e, applyExprList_true site rest]

end

mutual

/-- Once applied, statement traversal changes nothing. -/
theorem applyStmt_true (site : Site) : ∀ s : Stmt, applyStmt site s true = (s, true)
  | .assign t v ln c => by
    simp [applyStmt, applyExprList_true site t, applyExpr_true site v]
  | .ifStmt e b o ln c => by
    simp [applyStmt, applyExpr_true site e, applyStmtList_true site b,
      applyStmtList_true site o]
  | .ret (some e) ln c => by simp [applyStmt, applyExpr_true site e]
  | .ret none ln c => by simp [applyStmt]
  | .exprStmt e ln c => by simp [applyStmt, applyExpr_true site e]

/-- Once applied, statement-list traversal changes nothing. -/
theorem applyStmtList_true (site : Site) :
    ∀ m : StmtList, applyStmtList site m true = (m, true)
  | .nil => rfl
  | .cons s rest => by
    simp [applyStmtList, applyStmt_true site s, applyStmtList_true site rest]

end

mutual

/-- For a site whose kind is not `ConstantBool` the expression traversal
either applies nothing (flag still false and subtree unchanged) or sets
the flag having changed at most one node. -/
theorem applyExpr_op (site : Site) (hk : ¬ site.kind = "ConstantBool") :
    ∀ e : Expr,
      ((applyExpr site e false).2 = false → (applyExpr site e false).1 = e) ∧
      exprDiff e (applyExpr site e false).1 ≤ 1
  | .name i ln c => ⟨fun _ => rfl, by simp [applyExpr, exprDiff]⟩
  | .constant v ln c => by
    have hnone : constTry site v ln c false = none := by
      rw [constTry]
      simp [hk]
    constructor
    · intro _
      simp [applyExpr, hnone]
    · simp [applyExpr, hnone, exprDiff_self]
  | .binOp l o r ln c => by
    rcases hm : binOpTry site o ln c false with _ | op2
    · have ihl := applyExpr_op site hk l
      have ihr := applyExpr_op site hk r
      rcases hp : applyExpr site l false with ⟨l2, bl⟩
      rw [hp] at ihl
      simp only [applyExpr, hm, hp]
      cases bl with
      | true =>
        rw [applyExpr_true site r]
        refine ⟨fun hfin => absurd hfin (by simp), ?_⟩
        simp [exprDiff, exprDiff_self]
        exact ihl.2
      | false =>
        have hl2 : l2 = l := ihl.1 rfl
        subst hl2
        rcases hq : applyExpr site r false with ⟨r2, br⟩
        rw [hq] at ihr
        cases br with
        | true =>
          refine ⟨fun hfin => absurd hfin (by simp), ?_⟩
          simp [exprDiff, exprDiff_self]
          exact ihr.2
        | false =>
          have hr2 : r2 = r := ihr.1 rfl
          subst hr2
          exact ⟨fun _ => rfl, by simp [exprDiff, exprDiff_self]⟩
    · refine ⟨fun hfin => absurd hfin (by simp [applyExpr, hm]), ?_⟩
      simp only [applyExpr, hm]
      simp [exprDiff, exprDiff_self]
      split <;> omega
  | .compare l ops comps ln c => by
    rcases hm : compareTry site ops ln c false with _ | ops2
    · have ihl := applyExpr_op site hk l
      have ihr := applyExprList_op site hk comps
      rcases hp : applyExpr site l false with ⟨l2, bl⟩
      rw [hp] at ihl
      simp only [applyExpr, hm, hp]
      cases bl with
      | true =>
        rw [applyExprList_true site comps]
        refine ⟨fun hfin => absurd hfin (by simp), ?_⟩
        simp [exprDiff, exprDiff_self, exprListDiff_self]
        exact ihl.2
      | false =>
        have hl2 : l2 = l := ihl.1 rfl
        subst hl2
        rcases hq : applyExprList site comps false with ⟨comps2, br⟩
        rw [hq] at ihr
        cases br with
        | true =>
          refine ⟨fun hfin => absurd hfin (by simp), ?_⟩
          simp [exprDiff, exprDiff_self]
          exact ihr.2
        | false =>
          have hr2 : comps2 = comps := ihr.1 rfl
          subst hr2
          exact ⟨fun _ => rfl, by simp [exprDiff, exprDiff_self, exprListDiff_self]⟩
    · refine ⟨fun hfin => absurd hfin (by simp [applyExpr, hm]), ?_⟩
      simp only [applyExpr, hm]
      simp [exprDiff, exprDiff_self, exprListDiff_self]
      split <;> omega

/-- List version of `applyExpr_op`. -/
theorem applyExprList_op (site : Site) (hk : ¬ site.kind = "ConstantBool") :
    ∀ es : ExprList,
      ((applyExprList site es false).2 = false → (applyExprList site es false).1 = es) ∧
      exprListDiff es (applyExprList site es false).1 ≤ 1
  | .nil => ⟨fun _ => rfl, by simp [applyExprList, exprListDiff]⟩
  | .cons e rest => by
    have ihe := applyExpr_op site hk e
    have ihr := applyExprList_op site hk rest
    rcases hp : applyExpr site e false with ⟨e2, be⟩
    rw [hp] at ihe
    simp only [applyExprList, hp]
    cases be with
    | true =>
      rw [applyExprList_true site rest]
      refine ⟨fun hfin => absurd hfin (by simp), ?_⟩
      simp [exprListDiff, exprListDiff_self]
      exact ihe.2
    | false =>
      have he2 : e2 = e := ihe.1 rfl
      subst he2
      rcases hq : applyExprList site rest false with ⟨rest2, br⟩
      rw [hq] at ihr
      cases br with
      | true =>
        refine ⟨fun hfin => absurd hfin (by simp), ?_⟩
        simp [exprListDiff, exprDiff_self]
        exact ihr.2
      | false =>
        have hrest : rest2 = rest := ihr.1 rfl
        subst hrest
        exact ⟨fun _ => rfl, by simp [exprListDiff, exprDiff_self, exprListDiff_self]⟩

end

mutual

/-- Statement version of `applyExpr_op`. -/
theorem applyStmt_op (site : Site) (hk : ¬ site.kind = "ConstantBool") :
    ∀ s : Stmt,
      ((applyStmt site s false).2 = false → (applyStmt site s false).1 = s) ∧
      stmtDiff s (applyStmt site s false).1 ≤ 1
  | .assign t v ln c => by
    have iht := applyExprList_op site hk t
    have ihv := applyExpr_op site hk v
    rcases hp : applyExprList site t false with ⟨t2, bt⟩
    rw [hp] at iht
    simp only [applyStmt, hp]
    cases bt with
    | true =>
      rw [applyExpr_true site v]
      refine ⟨fun hfin => absurd hfin (by simp), ?_⟩
      simp [stmtDiff, exprDiff_self]
      exact iht.2
    | false =>
      have ht2 : t2 = t := iht.1 rfl
      subst ht2
      rcases hq : applyExpr site v false with ⟨v2, bv⟩
      rw [hq] at ihv
      cases bv with
      | true =>
        refine ⟨fun hfin => absurd hfin (by simp), ?_⟩
        simp [stmtDiff, exprListDiff_self]
        exact ihv.2
      | false =>
        have hv2 : v2 = v := ihv.1 rfl
        subst hv2
        exact ⟨fun _ => rfl, by simp [stmtDiff, exprDiff_self, exprListDiff_self]⟩
  | .ifStmt e bdy orl ln c => by
    have ihe := applyExpr_op site hk e
    have ihb := applyStmtList_op site hk bdy
    have iho := applyStmtList_op site hk orl
    rcases hp : applyExpr site e false with ⟨e2, be⟩
    rw [hp] at ihe
    simp only [applyStmt, hp]
    cases be with
    | true =>
      rw [applyStmtList_true site bdy, applyStmtList_true site orl]
      refine ⟨fun hfin => absurd hfin (by simp), ?_⟩
      simp [stmtDiff, stmtListDiff_self]
      exact ihe.2
    | false =>
      have he2 : e2 = e := ihe.1 rfl
      subst he2
      rcases hq : applyStmtList site bdy false with ⟨bdy2, bb⟩
      rw [hq] at ihb
      cases bb with
      | true =>
        rw [applyStmtList_true site orl]
        refine ⟨fun hfin => absurd hfin (by simp), ?_⟩
        simp [stmtDiff, exprDiff_self, stmtListDiff_self]
        exact ihb.2
      | false =>
        have hb2 : bdy2 = bdy := ihb.1 rfl
        subst hb2
        rcases hr : applyStmtList site orl false with ⟨orl2, bo⟩
        rw [hr] at iho
        cases bo with
        | true =>
          refine ⟨fun hfin => absurd hfin (by simp), ?_⟩
          simp [stmtDiff, exprDiff_self, stmtListDiff_self]
          exact iho.2
        | false =>
          have ho2 : orl2 = orl := iho.1 rfl
          subst ho2
          exact ⟨fun _ => rfl, by simp [stmtDiff, exprDiff_self, stmtListDiff_self]⟩
  | .ret (some e) ln c => by
    have ihe := applyExpr_op site hk e
    rcases hp : applyExpr site e false with ⟨e2, be⟩
    rw [hp] at ihe
    simp only [applyStmt, hp]
    cases be with
    | true =>
      refine ⟨fun hfin => absurd hfin (by simp), ?_⟩
      simp [stmtDiff]
      exact ihe.2
    | false =>
      have he2 : e2 = e := ihe.1 rfl
      subst he2
      exact ⟨fun _ => rfl, by simp [stmtDiff, exprDiff_self]⟩
  | .ret none ln c => ⟨fun _ => rfl, by simp [applyStmt, stmtDiff]⟩
  | .exprStmt e ln c => by
    have ihe := applyExpr_op site hk e
    rcases hp : applyExpr site e false with ⟨e2, be⟩
    rw [hp] at ihe
    simp only [applyStmt, hp]
    cases be with
    | true =>
      refine ⟨fun hfin => absurd hfin (by simp), ?_⟩
      simp [stmtDiff]
      exact ihe.2
    | false =>
      have he2 : e2 = e := ihe.1 rfl
      subst he2
      exact ⟨fun _ => rfl, by simp [stmtDiff, exprDiff_self]⟩

/-- Statement-list version of `applyExpr_op`. -/
theorem applyStmtList_op (site : Site) (hk : ¬ site.kind = "ConstantBool") :
    ∀ m : StmtList,
      ((applyStmtList site m false).2 = false → (applyStmtList site m false).1 = m) ∧
      stmtListDiff m (applyStmtList site m false).1 ≤ 1
  | .nil => ⟨fun _ => rfl, by simp [applyStmtList, stmtListDiff]⟩
  | .cons s rest => by
    have ihs := applyStmt_op site hk s
    have ihr := applyStmtList_op site hk rest
    rcases hp : applyStmt site s false with ⟨s2, bs⟩
    rw [hp] at ihs
    simp only [applyStmtList, hp]
    cases bs with
    | true =>
      rw [applyStmtList_true site rest]
      refine ⟨fun hfin => absurd hfin (by simp), ?_⟩
      simp [stmtListDiff, stmtListDiff_self]
      exact ihs.2
    | false =>
      have hs2 : s2 = s := ihs.1 rfl
      subst hs2
      rcases hq : applyStmtList site rest false with ⟨rest2, br⟩
      rw [hq] at ihr
      cases br with
      | true =>
        refine ⟨fun hfin => absurd hfin (by simp), ?_⟩
        simp [stmtListDiff, stmtDiff_self]
        exact ihr.2
      | false =>
        have hrest : rest2 = rest := ihr.1 rfl
        subst hrest
        exact ⟨fun _ => rfl, by simp [stmtListDiff, stmtDiff_self, stmtListDiff_self]⟩

end

mutual

/-- For a `ConstantBool` site the applier never changes the flag
(`visit_Constant` forgets to set `self.applied`). -/
theorem applyExpr_bool_flag (site : Site) (hk : site.kind = "ConstantBool") :
    ∀ (e : Expr) (b : Bool), (applyExpr site e b).2 = b
  | .name i ln c, b => rfl
  | .constant v ln c, b => by
    rcases hm : constTry site v ln c b with _ | v2 <;> simp [applyExpr, hm]
  | .binOp l o r ln c, b => by
    have hnone : binOpTry site o ln c b = none := by
      rw [binOpTry]
      simp [hk]
    simp [applyExpr, hnone, applyExpr_bool_flag site hk l,
      applyExpr_bool_flag site hk r]
  | .compare l ops comps ln c, b => by
    have hnone : compareTry site ops ln c b = none := by
      rw [compareTry]
      simp [hk]
    simp [applyExpr, hnone, applyExpr_bool_flag site hk l,
      applyExprList_bool_flag site hk comps]

/-- List version of `applyExpr_bool_flag`. -/
theorem applyExprList_bool_flag (site : Site) (hk : site.kind = "ConstantBool") :
    ∀ (es : ExprList) (b : Bool), (applyExprList site es b).2 = b
  | .nil, b => rfl
  | .cons e rest, b => by
    simp [applyExprList, applyExpr_bool_flag site hk e,
      applyExprList_bool_flag site hk rest]

end

mutual

/-- Statement version of `applyExpr_bool_flag`. -/
theorem applyStmt_bool_flag (site : Site) (hk : site.kind = "ConstantBool") :
    ∀ (s : Stmt) (b : Bool), (applyStmt site s b).2 = b
  | .assign t v ln c, b => by
    simp [applyStmt, applyExprList_bool_flag site hk t, applyExpr_bool_flag site hk v]
  | .ifStmt e bdy orl ln c, b => by
    simp [applyStmt, applyExpr_bool_flag site hk e,
      applyStmtList_bool_flag site hk bdy, applyStmtList_bool_flag site hk orl]
  | .ret (some e) ln c, b => by simp [applyStmt, applyExpr_bool_flag site hk e]
  | .ret none ln c, b => rfl
  | .exprStmt e ln c, b => by simp [applyStmt, applyExpr_bool_flag site hk e]

/-- Statement-list version of `applyExpr_bool_flag`. -/
theorem applyStmtList_bool_flag (site : Site) (hk : site.kind = "ConstantBool") :
    ∀ (m : StmtList) (b : Bool), (applyStmtList site m b).2 = b
  | .nil, b => rfl
  | .cons s rest, b => by
    simp [applyStmtList, applyStmt_bool_flag site hk s,
      applyStmtList_bool_flag site hk rest]

end

mutual

/-- For a `ConstantBool` site, the number of changed nodes is bounded by
the number of boolean constants whose anchor equals the site's anchor
(each matching constant is rewritten, none of them marks the flag). -/
theorem applyExpr_bool_diff (site : Site) (hk : site.kind = "ConstantBool") :
    ∀ e : Expr,
      exprDiff e (applyExpr site e false).1 ≤
        (boolConstsExpr e).countP (fun p => p.1 = (site.lineno, site.col_offset))
  | .name i ln c => by simp [applyExpr, exprDiff]
  | .constant v ln c => by
    rcases hm : constTry site v ln c false with _ | v2
    · simp [applyExpr, hm, exprDiff_self]
    · have hmm := hm
      rw [constTry] at hmm
      split_ifs at hmm with hc
      · obtain ⟨-, -, h1, h2⟩ := hc
        have hbool : ∃ bv, v = .boolVal bv := by
          cases v with
          | boolVal bv => exact ⟨bv, rfl⟩
          | intVal n => simp [constMutation] at hmm
          | strVal s => simp [constMutation] at hmm
          | noneVal => simp [constMutation] at hmm
        obtain ⟨bv, rfl⟩ := hbool
        subst h1
        subst h2
        simp only [applyExpr, hm]
        simp [exprDiff, boolConstsExpr, List.countP_cons]
        split <;> omega
  | .binOp l o r ln c => by
    have hnone : binOpTry site o ln c false = none := by
      rw [binOpTry]
      simp [hk]
    simp only [applyExpr, hnone]
    rw [applyExpr_bool_flag site hk l]
    simp [exprDiff, boolConstsExpr, List.countP_append]
    exact Nat.add_le_add (applyExpr_bool_diff site hk l) (applyExpr_bool_diff site hk r)
  | .compare l ops comps ln c => by
    have hnone : compareTry site ops ln c false = none := by
      rw [compareTry]
      simp [hk]
    simp only [applyExpr, hnone]
    rw [applyExpr_bool_flag site hk l]
    simp [exprDiff, boolConstsExpr, List.countP_append]
    exact Nat.add_le_add (applyExpr_bool_diff site hk l)
      (applyExprList_bool_diff site hk comps)

/-- List version of `applyExpr_bool_diff`. -/
theorem applyExprList_bool_diff (site : Site) (hk : site.kind = "ConstantBool") :
    ∀ es : ExprList,
      exprListDiff es (applyExprList site es false).1 ≤
        (boolConstsExprList es).countP (fun p => p.1 = (site.lineno, site.col_offset))
  | .nil => by simp [applyExprList, exprListDiff]
  | .cons e rest => by
    simp only [applyExprList]
    rw [applyExpr_bool_flag site hk e]
    simp [exprListDiff, boolConstsExprList, List.countP_append]
    exact Nat.add_le_add (applyExpr_bool_diff site hk e)
      (applyExprList_bool_diff site hk rest)

end

mutual

/-- Statement version of `applyExpr_bool_diff`. -/
theorem applyStmt_bool_diff (site : Site) (hk : site.kind = "ConstantBool") :
    ∀ s : Stmt,
      stmtDiff s (applyStmt site s false).1 ≤
        (boolConstsStmt s).countP (fun p => p.1 = (site.lineno, site.col_offset))
  | .assign t v ln c => by
    simp only [applyStmt]
    rw [applyExprList_bool_flag site hk t]
    simp [stmtDiff, boolConstsStmt, List.countP_append]
    exact Nat.add_le_add (applyExprList_bool_diff site hk t)
      (applyExpr_bool_diff site hk v)
  | .ifStmt e bdy orl ln c => by
    simp only [applyStmt]
    rw [applyExpr_bool_flag site hk e, applyStmtList_bool_flag site hk bdy]
    simp [stmtDiff, boolConstsStmt, List.countP_append, Nat.add_assoc]
    exact Nat.add_le_add (applyExpr_bool_diff site hk e)
      (Nat.add_le_add (applyStmtList_bool_diff site hk bdy)
        (applyStmtList_bool_diff site hk orl))
  | .ret (some e) ln c => by
    simp only [applyStmt]
    simp [stmtDiff, boolConstsStmt]
    exact applyExpr_bool_diff site hk e
  | .ret none ln c => by simp [applyStmt, stmtDiff, boolConstsStmt]
  | .exprStmt e ln c => by
    simp only [applyStmt]
    simp [stmtDiff, boolConstsStmt]
    exact applyExpr_bool_diff site hk e

/-- Statement-list version of `applyExpr_bool_diff`. -/
theorem applyStmtList_bool_diff (site : Site) (hk : site.kind = "ConstantBool") :
    ∀ m : StmtList,
      stmtListDiff m (applyStmtList site m false).1 ≤
        (boolConstsStmtList m).countP (fun p => p.1 = (site.lineno, site.col_offset))
  | .nil => by simp [applyStmtList, stmtListDiff]
  | .cons s rest => by
    simp only [applyStmtList]
    rw [applyStmt_bool_flag site hk s]
    simp [stmtListDiff, boolConstsStmtList, List.countP_append]
    exact Nat.add_le_add (applyStmt_bool_diff site hk s)
      (applyStmtList_bool_diff site hk rest)

end

/-- In a duplicate-free list each value is counted at most once. -/
theorem countP_eq_le_one_of_nodup {α : Type} [DecidableEq α] (a : α) :
    ∀ l : List α, l.Nodup → l.countP (fun x => x = a) ≤ 1
  | [], _ => by simp
  | x :: xs, h => by
    rw [List.countP_cons]
    rcases List.nodup_cons.mp h with ⟨hx, hxs⟩
    by_cases hxa : x = a
    · subst hxa
      have hz : xs.countP (fun y => y = x) = 0 := by
        apply List.countP_eq_zero.mpr
        intro y hy
        simp
        intro h2
        exact hx (h2 ▸ hy)
      simp [hz]
    · have := countP_eq_le_one_of_nodup a xs hxs
      simp [hxa]
      omega

/-- The mutant loop of `generate_mutants_from_source`, generalized over
the accumulator: every kept mutant comes from applying its own site to
the same pristine root. -/
theorem mutants_foldl_general (root : Module) :
    ∀ (sites : List Site) (acc : List (String × String)),
      sites.foldl (fun mutants site =>
        let tree_copy := deepcopy root
        let res := applyModule site tree_copy
        if res.2 then mutants ++ [(siteDesc site, unparseModule res.1)] else mutants) acc
      = acc ++ sites.filterMap (fun site =>
          if (applyModule site (deepcopy root)).2
          then some (siteDesc site, unparseModule (applyModule site (deepcopy root)).1)
          else none)
  | [], acc => by simp
  | s :: rest, acc => by
    rw [List.foldl_cons, mutants_foldl_general root rest _, List.filterMap_cons]
    by_cases h : (applyModule s (deepcopy root)).2
    · simp [h]
    · simp [h]

/-- `generate_mutants_from_source` computes, for each cataloged site
independently, the applier's result on a fresh copy of the same root. -/
theorem generate_mutants_eq_filterMap (root : Module) :
    generate_mutants_from_source root =
      (collectModule root).filterMap (fun site =>
        if (applyModule site (deepcopy root)).2
        then some (siteDesc site, unparseModule (applyModule site (deepcopy root)).1)
        else none) :=
  (mutants_foldl_general root (collectModule root) []).trans
    (List.nil_append _)

/-- Claim C8: applying a mutation site changes at most one node of the
tree (for boolean-literal sites this uses the parser guarantee that
distinct literals have distinct anchors); the applier works on a deep
copy while the original is untouched, and each cataloged site is applied
to its own fresh copy of the same pristine root, so mutants cannot
interfere with one another. -/
theorem c8_single_site (site : Site) (m : Module)
    (hb : ((boolConstsStmtList m).map Prod.fst).Nodup) :
    stmtListDiff m (applyModule site m).1 ≤ 1 ∧
    deepcopy m = m ∧
    generate_mutants_from_source m =
      (collectModule m).filterMap (fun s =>
        if (applyModule s (deepcopy m)).2
        then some (siteDesc s, unparseModule (applyModule s (deepcopy m)).1)
        else none) := by
  refine ⟨?_, rfl, generate_mutants_eq_filterMap m⟩
  by_cases hk : site.kind = "ConstantBool"
  · refine Nat.le_trans (applyStmtList_bool_diff site hk m) ?_
    have hmap : (boolConstsStmtList m).countP
        (fun p => p.1 = (site.lineno, site.col_offset)) =
        ((boolConstsStmtList m).map Prod.fst).countP
          (fun x => x = (site.lineno, site.col_offset)) := by
      rw [List.countP_map]
      rfl
    rw [hmap]
    exact countP_eq_le_one_of_nodup _ _ hb
  · exact (applyStmtList_op site hk m).2

/-- Witness for `c8_single_site`: the Scenario A tree and its comparison
site, with the boolean anchors trivially duplicate-free. -/
theorem c8_single_site_witness :
    stmtListDiff srcIfEq
      (applyModule ⟨"Compare", 1, 3, some 0, .str "Eq", .str "NotEq"⟩ srcIfEq).1 ≤ 1 ∧
    deepcopy srcIfEq = srcIfEq ∧
    generate_mutants_from_source srcIfEq =
      (collectModule srcIfEq).filterMap (fun s =>
        if (applyModule s (deepcopy srcIfEq)).2
        then some (siteDesc s, unparseModule (applyModule s (deepcopy srcIfEq)).1)
        else none) :=
  c8_single_site ⟨"Compare", 1, 3, some 0, .str "Eq", .str "NotEq"⟩ srcIfEq (by decide)

end PyMut
